import Mathlib

/-- The null character used as C string terminator. -/
def nulChar : Char := Char.ofNat 0

/-- ASCII digit character for `n % 10`. -/
def digitChar (n : Nat) : Char := Char.ofNat (n % 10 + 48)

/-- Loop body of `integerMetricToText`, structurally recursive on the width:
`do { text[--width] = (metric % 10) + '0'; if (width == 0) return 0; metric /= 10; }
while (metric != 0); return width`. -/
def intToTextLoop : Nat → List Char → Nat → List Char × Nat
  | _, t, 0 => (t, 0)
  | m, t, w + 1 =>
    let t' := t.set w (digitChar m)
    if w = 0 then (t', 0)
    else if m / 10 = 0 then (t', w)
    else intToTextLoop (m / 10) t' w

/-- `integerMetricToText(metric, text, width)`: writes a 64-bit unsigned integer
as text, right aligned, returns the remaining width (overlay.cpp). -/
def integerMetricToText (metric : Nat) (text : List Char) (width : Nat) :
    List Char × Nat :=
  intToTextLoop metric text width

/-- Integer-part loop of `timeMetricToText`:
`do { text[--width] = (metric % 10) + '0'; metric /= 10; } while (metric != 0 && width > 0)`. -/
def timeIntLoop : Nat → List Char → Nat → List Char × Nat
  | _, t, 0 => (t, 0)
  | m, t, w + 1 =>
    let t' := t.set w (digitChar m)
    if m / 10 ≠ 0 ∧ 0 < w then timeIntLoop (m / 10) t' w else (t', w)

/-- Tail of `timeMetricToText` taken when the decimal loop exits with `metric == 0`
(value below `decimalCount` digits): optional extra '0' when only one decimal digit
was written, then the decimal point, then a leading '0' if room remains. -/
def timeZeroTail (t : List Char) (w : Nat) (i : Nat) : List Char × Nat :=
  let t1 := if i = 1 then t.set (w - 1) '0' else t
  let w1 := if i = 1 then w - 1 else w
  if i = 1 ∧ w1 = 0 then (t1, 0)
  else
    let w2 := w1 - 1
    let t2 := t1.set w2 '.'
    if w2 = 0 then (t2, 0)
    else (t2.set (w2 - 1) '0', w2 - 1)

/-- `timeMetricToText(metric, text, width)`: writes a nanosecond duration as
milliseconds with two decimal digits, right aligned; returns remaining width
(overlay.cpp). The two iterations of the bounded decimal-digit loop
(`decimalCount == 2`) are unrolled. -/
def timeMetricToText (metric0 : Nat) (text : List Char) : Nat → List Char × Nat
  | 0 => (text, 0)
  | w1 + 1 =>
    let m := metric0 / 10000
    let t1 := text.set w1 (digitChar m)
    if w1 = 0 then (t1, 0)
    else
      let m1 := m / 10
      if m1 = 0 then timeZeroTail t1 w1 1
      else
        match w1 with
        | 0 => (t1, 0)
        | w2 + 1 =>
          let t2 := t1.set w2 (digitChar m1)
          if w2 = 0 then (t2, 0)
          else
            let m2 := m1 / 10
            if m2 = 0 then timeZeroTail t2 w2 2
            else
              let w3 := w2 - 1
              let t3 := t2.set w3 '.'
              if w3 = 0 then (t3, 0)
              else timeIntLoop m2 t3 w3

/-- Event type discriminant (`FMEvent::Type`), in declaration order; `TypeCount = 4`. -/
inductive FMEventType where
  | process
  | window
  | frame
  | generic
deriving DecidableEq

/-- One entry of the static `metricInfo` table: placeholder name, default
display width, owning event type. -/
structure MetricInfo where
  name : List Char
  defaultWidth : Nat
  type : FMEventType

/-- The static `keywordInfo` table names, in order (indices `QtVersion = 0`,
`QtPlatform`, `GlVersion`, `CpuModel`, `GpuModel`). -/
def keywordNames : List (List Char) :=
  ["qtVersion".toList, "qtPlatform".toList, "glVersion".toList,
   "cpuModel".toList, "gpuModel".toList]

/-- The static `metricInfo` table, in order (indices `CpuUsage = 0` ..
`TotalTime = 11`). -/
def metricTable : List MetricInfo :=
  [⟨"cpuUsage".toList, 3, .process⟩, ⟨"threadCount".toList, 3, .process⟩,
   ⟨"vszMemory".toList, 8, .process⟩, ⟨"rssMemory".toList, 8, .process⟩,
   ⟨"windowId".toList, 2, .window⟩, ⟨"windowSize".toList, 9, .window⟩,
   ⟨"frameNumber".toList, 7, .frame⟩, ⟨"deltaTime".toList, 7, .frame⟩,
   ⟨"syncTime".toList, 7, .frame⟩, ⟨"renderTime".toList, 7, .frame⟩,
   ⟨"gpuTime".toList, 7, .frame⟩, ⟨"totalTime".toList, 7, .frame⟩]

/-- `maxMetricsPerType` (overlay_p.h). -/
def maxMetricsPerType : Nat := 16

/-- `maxParsedTextSize` (overlay.cpp), including the terminating null byte. -/
def maxParsedTextSize : Nat := 1024

/-- `maxMetricWidth` (overlay.cpp). -/
def maxMetricWidth : Nat := 32

/-- `maxKeywordStringSize` (overlay.cpp). -/
def maxKeywordStringSize : Nat := 128

/-- Reads `text[i]` of the Latin-1 template string: the null terminator is
returned at (and past) the end, as for `QByteArray::constData()`. -/
def charAt (text : List Char) (i : Nat) : Char := text.getD i nulChar

/-- `strncmp(&text[p], name, name.size) == 0`, for a placeholder name free of
null characters. -/
def matchesAt (text : List Char) (p : Nat) : List Char → Bool
  | [] => true
  | c :: cs => charAt text p == c && matchesAt text (p + 1) cs

/-- The keyword-search loop of `parseText`: first table index whose name
matches at position `p`, together with that name. -/
def scanKw (text : List Char) (p : Nat) : Nat → List (List Char) → Option (Nat × List Char)
  | _, [] => none
  | j, name :: rest =>
    if matchesAt text p name then some (j, name) else scanKw text p (j + 1) rest

/-- The metric-search loop of `parseText`: first table index whose owning
category is below `maxMetricsPerType` and whose name matches at `p` (an entry
whose name matches but whose category is full does not break the loop). -/
def scanMetric (sizes : FMEventType → Nat) (text : List Char) (p : Nat) :
    Nat → List MetricInfo → Option (Nat × MetricInfo)
  | _, [] => none
  | j, e :: rest =>
    if sizes e.type < maxMetricsPerType ∧ matchesAt text p e.name then some (j, e)
    else scanMetric sizes text p (j + 1) rest

/-- `isdigit` on a Latin-1 character. -/
def isDigitC (c : Char) : Bool := 48 ≤ c.toNat && c.toNat ≤ 57

/-- `qBound(lo, x, hi)` on naturals. -/
def qBound (lo x hi : Nat) : Nat := max lo (min x hi)

/-- The width-prefix parsing of a metric placeholder: 1-2 leading decimal
digits clamped to `[1, maxMetricWidth]`; returns the explicit width (if any)
and the number of digit characters consumed (`widthOffset`). -/
def parseWidth (text : List Char) (i : Nat) : Option Nat × Nat :=
  let c1 := charAt text (i + 1)
  if isDigitC c1 then
    let c2 := charAt text (i + 2)
    if isDigitC c2 then
      (some (qBound 1 ((c1.toNat - 48) * 10 + (c2.toNat - 48)) maxMetricWidth), 2)
    else (some (qBound 1 (c1.toNat - 48) maxMetricWidth), 1)
  else (none, 0)

/-- A bound metric slot: `{index, textIndex, width}` (overlay_p.h `m_metrics`). -/
structure Slot where
  index : Nat
  textIndex : Nat
  width : Nat
deriving DecidableEq

/-- The parser state over `m_parsedText` (modelled as an unbounded byte store
so that out-of-bounds writes would be observable), the `characters` counter,
the per-type `m_metrics`/`m_metricsSize` slot tables, and the `m_buffer`
scratch used by `keywordString`: a byte list of arbitrary length whose stale
contents matter because `keywordString` never writes a terminating null byte
into it (its doc comment says so) while the keyword branch of `parseText`
copies from it with `strcpy`; reads past its end are modelled as yielding the
null byte. -/
structure PState where
  parsed : Nat → Char
  chars : Nat
  slots : FMEventType → List Slot
  buffer : List Char

/-- Single byte store write. -/
def writeChar (b : Nat → Char) (i : Nat) (c : Char) : Nat → Char :=
  fun j => if j = i then c else b j

/-- Consecutive byte store writes starting at `i`. -/
def writeList (b : Nat → Char) (i : Nat) : List Char → Nat → Char
  | [] => b
  | c :: cs => writeList (writeChar b i c) (i + 1) cs

/-- Appends a slot to the `m_metrics` row of one event type
(`m_metrics[type][m_metricsSize[type]] = ...; m_metricsSize[type]++`). -/
def updSlots (f : FMEventType → List Slot) (ty : FMEventType) (sl : Slot) :
    FMEventType → List Slot :=
  fun t => if t = ty then f t ++ [sl] else f t

/-- The bytes `strcpy` copies out of the scratch buffer: everything up to and
including the first null byte. Since `keywordString` does not null-terminate
the scratch, the copy runs through the resolved string into the stale contents
behind it; the read past the modelled bytes is what eventually stops it. -/
def strcpyBytes (src : List Char) : List Char :=
  src.takeWhile (fun c => c != nulChar) ++ [nulChar]

/-- One iteration of the `parseText` character loop at position `i`: returns
the updated state and the position for the next iteration (after the `i++` of
the `for` loop and any skip over a consumed placeholder). On a keyword match,
`keywordString(j, keywordBuffer, maxKeywordStringSize)` writes the resolved
string `kw j` (clamped to `maxKeywordStringSize` by its bounded copies) into
the scratch without a terminating null byte and returns its size; the capacity
check compares that size, but the `strcpy` that follows copies `strcpyBytes`
of the whole scratch — a length the check does not bound — while `characters`
advances by the returned size only. -/
def stepParse (kw : Nat → List Char) (text : List Char) (s : PState) (i : Nat) :
    PState × Nat :=
  let c := charAt text i
  if c ≠ '%' then
    ({ s with parsed := writeChar s.parsed s.chars c, chars := s.chars + 1 }, i + 1)
  else if charAt text (i + 1) = '%' then
    ({ s with parsed := writeChar s.parsed s.chars '%', chars := s.chars + 1 }, i + 2)
  else
    match scanKw text (i + 1) 0 keywordNames with
    | some (j, name) =>
      let str := (kw j).take maxKeywordStringSize
      let scr := str ++ s.buffer.drop str.length
      if str.length + s.chars < maxParsedTextSize then
        ({ s with buffer := scr,
                  parsed := writeList s.parsed s.chars (strcpyBytes scr),
                  chars := s.chars + str.length }, i + 1 + name.length)
      else ({ s with buffer := scr }, i + 1)
    | none =>
      let wp := parseWidth text i
      match scanMetric (fun t => (s.slots t).length) text (i + 1 + wp.2) 0 metricTable with
      | some (j, e) =>
        let w := wp.1.getD e.defaultWidth
        if w + s.chars < maxParsedTextSize then
          ({ s with parsed := writeList s.parsed s.chars (List.replicate w '?'),
                    chars := s.chars + w,
                    slots := updSlots s.slots e.type ⟨j, s.chars, w⟩ },
           i + 1 + wp.2 + e.name.length)
        else (s, i + 1)
      | none => (s, i + 1)

/-- The `for (int i = 0; i <= textSize; i++)` loop of `parseText`, with an
explicit fuel (the loop position strictly increases, so `text.length + 1` fuel
is enough). On reaching `maxParsedTextSize - 1` characters the loop writes the
terminator at index 1023 and stops. -/
def parseLoop (kw : Nat → List Char) (text : List Char) : Nat → PState → Nat → PState
  | 0, s, _ => s
  | fuel + 1, s, i =>
    if i ≤ text.length then
      let r := stepParse kw text s i
      if maxParsedTextSize - 1 ≤ r.1.chars then
        { r.1 with parsed := writeChar r.1.parsed (maxParsedTextSize - 1) nulChar }
      else parseLoop kw text fuel r.1 r.2
    else s

/-- `FMOverlay::parseText()` run from a fresh overlay (empty slot tables, as
set up by the constructor), over initial contents `p0` of the heap-allocated
`m_parsedText` and initial stale contents `scr0` of the `m_buffer` scratch
(uninitialized at the first parse; partly overwritten, without null bytes, by
the metric updaters before any later re-parse). -/
def parseText (kw : Nat → List Char) (text : List Char) (p0 : Nat → Char)
    (scr0 : List Char) : PState :=
  parseLoop kw text (text.length + 1) ⟨p0, 0, fun _ => [], scr0⟩ 0

/-- First `n` bytes of the parsed-text buffer. -/
def parsedPrefix (s : PState) (n : Nat) : List Char := (List.range n).map s.parsed

def kw0 : Nat → List Char := fun _ => []
def b0 : Nat → Char := fun _ => ' '

/-- Template holding 17 distinct Frame-category metric placeholders
(`%1frameNumber` .. `%17frameNumber`, distinct by explicit width). -/
def tmpl17 : List Char :=
  (String.join ((List.range 17).map (fun k => "%" ++ toString (k + 1) ++ "frameNumber"))).toList

/-- The `WindowSize` case of `FMOverlay::updateWindowMetrics`: the scratch
buffer is `memset` to `maxMetricWidth` spaces, the frame height is written
right aligned in the slot width, then if at least two cells remain an 'x'
separator and the frame width, if exactly one remains just the separator; the
slot displays the first `slotWidth` bytes. -/
def windowSizeBuf (frameW frameH slotWidth : Nat) : List Char :=
  let t0 := List.replicate maxMetricWidth ' '
  let r1 := integerMetricToText frameH t0 slotWidth
  if 2 ≤ r1.2 then
    (integerMetricToText frameW (r1.1.set (r1.2 - 1) 'x') (r1.2 - 1)).1
  else if r1.2 = 1 then r1.1.set 0 'x'
  else r1.1

/-- The text displayed in a `windowSize` slot. -/
def windowSizeText (frameW frameH slotWidth : Nat) : List Char :=
  (windowSizeBuf frameW frameH slotWidth).take slotWidth

/-- `FMApplicationMonitorPrivate::maxLoggers`. -/
def maxLoggers : Nat := 8

/-- The sink (logger) array of the application monitor: slot store plus
`m_loggerCount`. Debug builds keep the slot at index `count` null, as
`installLogger`/`removeLogger` assert and maintain. Loggers are identified by
numeric handles; a null pointer is `none`. -/
structure LoggerState where
  loggers : Nat → Option Nat
  count : Nat

/-- `FMApplicationMonitor::installLogger`: appends at index `count` when below
capacity and the pointer is non-null. Returns the new state and the result. -/
def installLogger (st : LoggerState) (l : Option Nat) : LoggerState × Bool :=
  match l with
  | none => (st, false)
  | some v =>
    if st.count < maxLoggers then
      ({ loggers := fun j => if j = st.count then some v else st.loggers j,
         count := st.count + 1 }, true)
    else (st, false)

/-- The search loop of `removeLogger`:
`for (int i = d->m_loggerCount; i > 0; --i)` — the scanned indices are
`count, count-1, ..., 1`. On a match at `i`, the count is decremented and the
previous last entry is moved into `i` when `i < count - 1`; the vacated slot is
nulled (debug builds). -/
def removeLoop (st : LoggerState) (target : Nat) : Nat → LoggerState × Bool
  | 0 => (st, false)
  | i + 1 =>
    if st.loggers (i + 1) = some target then
      let nc := st.count - 1
      let lg1 := fun j =>
        if i + 1 < nc ∧ j = i + 1 then st.loggers nc else st.loggers j
      let lg2 := fun j => if j = nc then none else lg1 j
      ({ loggers := lg2, count := nc }, true)
    else removeLoop st target i

/-- `FMApplicationMonitor::removeLogger` (the `free` flag only controls
deletion of the removed sink object and does not affect the list). -/
def removeLogger (st : LoggerState) (l : Option Nat) : LoggerState × Bool :=
  match l with
  | none => (st, false)
  | some v => removeLoop st v st.count

def emptyLoggers : LoggerState := ⟨fun _ => none, 0⟩

-- first-installed sink can never be removed (the loop never checks index 0)
/-- `FMWindowEvent::State`. -/
inductive FMWindowState where
  | shown
  | hidden
  | resized
deriving DecidableEq

/-- Process event payload. -/
structure FMProcessEvent where
  cpuUsage : Nat
  threadCount : Nat
  vszMemory : Nat
  rssMemory : Nat
deriving DecidableEq

/-- Window event payload. -/
structure FMWindowEvent where
  id : Nat
  width : Nat
  height : Nat
  state : FMWindowState
deriving DecidableEq

/-- Frame event payload. -/
structure FMFrameEvent where
  window : Nat
  number : Nat
  deltaTime : Nat
  syncTime : Nat
  renderTime : Nat
  gpuTime : Nat
  swapTime : Nat
deriving DecidableEq

/-- Generic event payload (string bounded by `FMGenericEvent::maxStringSize`). -/
structure FMGenericEvent where
  id : Nat
  stringSize : Nat
  string : List Char
deriving DecidableEq

/-- An `FMEvent` record: discriminant, timestamp, and the union payload
(modelled as a product; only the payload matching `type` is meaningful). -/
structure FMEvent where
  type : FMEventType
  timeStamp : Nat
  process : FMProcessEvent
  window : FMWindowEvent
  frame : FMFrameEvent
  generic : FMGenericEvent
deriving DecidableEq

/-- A default (zeroed) event, as produced by `memset(&event, 0, sizeof)`. -/
def zeroEvent : FMEvent :=
  ⟨.process, 0, ⟨0, 0, 0, 0⟩, ⟨0, 0, 0, .shown⟩, ⟨0, 0, 0, 0, 0, 0, 0⟩, ⟨0, 0, []⟩⟩

/-- `logQueueSize` (applicationmonitor.cpp). -/
def logQueueSize : Nat := 16

/-- The shared state of the logging thread and its producers: the bounded ring
buffer (`m_queue`, `m_queueIndex`, `m_queueSize`), the join-request flag, and
whether the consumer's `run()` loop has exited. The ghost fields record the
overall push order, the delivery order, the currently installed sink list and
each sink's received events (sinks are numeric handles). -/
structure LTState where
  queue : Nat → FMEvent
  queueIndex : Nat
  queueSize : Nat
  joinRequested : Bool
  exited : Bool
  pushed : List FMEvent
  delivered : List FMEvent
  loggerList : List Nat
  received : Nat → List FMEvent

/-- The events currently in the ring buffer, oldest first. -/
def ringList (s : LTState) : List FMEvent :=
  (List.range s.queueSize).map (fun k => s.queue ((s.queueIndex + k) % logQueueSize))

/-- An initial logging-thread state over arbitrary (uninitialized) ring
storage: empty queue, no join request, consumer running, nothing pushed or
delivered, no sinks installed. -/
def ltInit (q0 : Nat → FMEvent) : LTState :=
  ⟨q0, 0, 0, false, false, [], [], [], fun _ => []⟩

/-- The atomic transitions of the logging thread system. Each constructor is
one mutex-protected critical section of `LoggingThread`:
`push` is the slot write of `LoggingThread::push` (enabled only below
capacity; a producer finding the queue full yields and retries, which is no
transition; a producer can never push once `run()` has exited because every
producer holds a reference and the destructor only runs, joining the thread,
after the last `deref`); `setJoin` is the destructor setting `JoinRequested`; `consume` is
one dequeue of `run()` together with the fan-out of the event to the sink-list
snapshot taken in the same iteration; `exitRun` is `BREAK_ON_JOIN_REQUEST`,
reachable in `run()` only with an empty queue; `setSinks` is
`LoggingThread::setLoggers`. -/
inductive LTStep : LTState → LTState → Prop where
  | push (s : LTState) (e : FMEvent) (h : s.queueSize < logQueueSize)
      (hx : s.exited = false) :
      LTStep s { s with
        queue := fun j =>
          if j = (s.queueIndex + s.queueSize) % logQueueSize then e else s.queue j,
        queueSize := s.queueSize + 1,
        pushed := s.pushed ++ [e] }
  | setJoin (s : LTState) :
      LTStep s { s with joinRequested := true }
  | consume (s : LTState) (h : 0 < s.queueSize) (hx : s.exited = false) :
      LTStep s { s with
        queueIndex := (s.queueIndex + 1) % logQueueSize,
        queueSize := s.queueSize - 1,
        delivered := s.delivered ++ [s.queue s.queueIndex],
        received := fun l =>
          if l ∈ s.loggerList then s.received l ++ [s.queue s.queueIndex]
          else s.received l }
  | exitRun (s : LTState) (h : s.queueSize = 0) (hj : s.joinRequested = true)
      (hx : s.exited = false) :
      LTStep s { s with exited := true }
  | setSinks (s : LTState) (ls : List Nat) (h : ls.length ≤ maxLoggers) :
      LTStep s { s with loggerList := ls }

/-- Reachability from an initial state by logging-thread transitions. -/
def LTReach (s s' : LTState) : Prop := Relation.ReflTransGen LTStep s s'

/-- Action labels for executable replay of logging-thread transitions. -/
inductive LTAction where
  | push (e : FMEvent)
  | setJoin
  | consume
  | exitRun
  | setSinks (ls : List Nat)

/-- Executes one action when its guard is enabled (mirrors `LTStep`). -/
def applyAction (s : LTState) : LTAction → Option LTState
  | .push e =>
    if s.queueSize < logQueueSize ∧ s.exited = false then
      some { s with
        queue := fun j =>
          if j = (s.queueIndex + s.queueSize) % logQueueSize then e else s.queue j,
        queueSize := s.queueSize + 1,
        pushed := s.pushed ++ [e] }
    else none
  | .setJoin => some { s with joinRequested := true }
  | .consume =>
    if 0 < s.queueSize ∧ s.exited = false then
      some { s with
        queueIndex := (s.queueIndex + 1) % logQueueSize,
        queueSize := s.queueSize - 1,
        delivered := s.delivered ++ [s.queue s.queueIndex],
        received := fun l =>
          if l ∈ s.loggerList then s.received l ++ [s.queue s.queueIndex]
          else s.received l }
    else none
  | .exitRun =>
    if s.queueSize = 0 ∧ s.joinRequested = true ∧ s.exited = false then
      some { s with exited := true }
    else none
  | .setSinks ls =>
    if ls.length ≤ maxLoggers then some { s with loggerList := ls } else none

/-- Executes a sequence of actions. -/
def applyTrace (s : LTState) : List LTAction → Option LTState
  | [] => some s
  | a :: rest =>
    match applyAction s a with
    | some s' => applyTrace s' rest
    | none => none

/-- An event distinguishable by its timestamp (used in concrete traces). -/
def mkEv (n : Nat) : FMEvent := { zeroEvent with timeStamp := n }

/-- `quint32` modulus: `m_frameEvent.frame.number` is a 32-bit counter. -/
def quint32Mod : Nat := 2 ^ 32

/-- The per-window monitor state embedded for the scene-graph callbacks: the
`GpuResourcesInitialized`/`GpuTimerAvailable` flag bits, the accumulated
`m_frameEvent.frame` payload, and the last known frame size. Event pushes to
the logging thread are modelled separately by `LTStep`. -/
structure WMState where
  gpuResourcesInitialized : Bool
  gpuTimerAvailable : Bool
  frameEvent : FMFrameEvent
  frameSize : Nat × Nat

/-- `WindowMonitor::WindowMonitor`: frame event zeroed (`memset`), window id
stored, frame size taken from the window, GPU resources not yet initialized. -/
def wmInit (id w h : Nat) : WMState :=
  ⟨false, false, { window := id, number := 0, deltaTime := 0, syncTime := 0,
                   renderTime := 0, gpuTime := 0, swapTime := 0 }, (w, h)⟩

/-- `WindowMonitor::initializeGpuResources`: allocates overlay and GPU-timer
resources, zeroes the frame number and sets the flag bits (`noGpuTimer` is the
`FM_NO_GPU_TIMER` environment opt-out). -/
def initializeGpuResources (noGpuTimer : Bool) (s : WMState) : WMState :=
  { s with gpuResourcesInitialized := true,
           gpuTimerAvailable := s.gpuTimerAvailable || !noGpuTimer,
           frameEvent := { s.frameEvent with number := 0 } }

/-- `WindowMonitor::finalizeGpuResources`: releases the resources, zeroes the
frame number and clears both flag bits. -/
def finalizeGpuResources (s : WMState) : WMState :=
  { s with gpuResourcesInitialized := false, gpuTimerAvailable := false,
           frameEvent := { s.frameEvent with number := 0 } }

/-- The render-pipeline callbacks, with the wall/GPU timer readings they
consume supplied as inputs (`QElapsedTimer::nsecsElapsed`, `m_gpuTimer.stop()`,
an invalid delta timer reads as 0). -/
inductive WMCallback where
  | sceneGraphInitialized
  | sceneGraphInvalidated
  | beforeSynchronizing
  | afterSynchronizing (syncNs : Nat)
  | beforeRendering (w h : Nat)
  | afterRendering (renderNs gpuNs : Nat)
  | frameSwapped (deltaNs swapNs : Nat)
  | sceneGraphAboutToStop

/-- The `WindowMonitor` slot bodies (applicationmonitor.cpp), restricted to
the embedded state; `loggingFrames` tells whether `Logging | FrameEvent` is on
(gates the `swapTime` stamp of `windowFrameSwapped`); pushes of Window/Frame
events onto the logging thread are side effects on the queue model, not on
this state. `windowSceneGraphAboutToStop` finalizes GPU resources before the
monitor destroys itself. -/
def wmStep (noGpuTimer loggingFrames : Bool) (s : WMState) : WMCallback → WMState
  | .sceneGraphInitialized =>
    if s.gpuResourcesInitialized then s else initializeGpuResources noGpuTimer s
  | .sceneGraphInvalidated =>
    if s.gpuResourcesInitialized then finalizeGpuResources s else s
  | .beforeSynchronizing => s
  | .afterSynchronizing syncNs =>
    if s.gpuResourcesInitialized then
      { s with frameEvent := { s.frameEvent with syncTime := syncNs } }
    else s
  | .beforeRendering w h => { s with frameSize := (w, h) }
  | .afterRendering renderNs gpuNs =>
    if s.gpuResourcesInitialized then
      { s with frameEvent := { s.frameEvent with
          renderTime := renderNs,
          gpuTime := if s.gpuTimerAvailable then gpuNs else 0,
          number := (s.frameEvent.number + 1) % quint32Mod } }
    else s
  | .frameSwapped deltaNs swapNs =>
    if s.gpuResourcesInitialized then
      { s with frameEvent := { s.frameEvent with
          deltaTime := deltaNs,
          swapTime := if loggingFrames then swapNs else s.frameEvent.swapTime } }
    else initializeGpuResources noGpuTimer s
  | .sceneGraphAboutToStop =>
    if s.gpuResourcesInitialized then finalizeGpuResources s else s

/-- Runs a window monitor over a callback trace. -/
def wmRun (noGpuTimer loggingFrames : Bool) (id w h : Nat) (cbs : List WMCallback) : WMState :=
  cbs.foldl (wmStep noGpuTimer loggingFrames) (wmInit id w h)

/-- Modelled from the claim wording, for comparison with the code: one step of
the ideal frame counter, which "counts AfterRender callbacks since the most
recent GPU-resource initialization", is zeroed whenever resources are
initialized or finalized, and only advances while they are initialized. The
state is (initialized?, count). -/
def claimFrameStep (st : Bool × Nat) (cb : WMCallback) : Bool × Nat :=
  match cb with
  | .sceneGraphInitialized => if st.1 then st else (true, 0)
  | .sceneGraphInvalidated => if st.1 then (false, 0) else st
  | .afterRendering _ _ => if st.1 then (st.1, st.2 + 1) else st
  | .frameSwapped _ _ => if st.1 then st else (true, 0)
  | .sceneGraphAboutToStop => if st.1 then (false, 0) else st
  | _ => st

/-- The ideal frame counter over a callback trace (modelled from the claim
wording, starting like the constructor with resources uninitialized). -/
def claimFrameCount (cbs : List WMCallback) : Bool × Nat :=
  cbs.foldl claimFrameStep (false, 0)

/-- One step of decimal parse-back of a displayed field: digits accumulate,
other characters (the space padding) are skipped. -/
def parseFieldStep (a : Nat) (c : Char) : Nat :=
  if isDigitC c then a * 10 + (c.toNat - 48) else a

/-- Decimal parse-back of a displayed text field. -/
def parseField (cs : List Char) : Nat := cs.foldl parseFieldStep 0

/-- The inductive invariant of the logging-thread system: the ring index and
fill count stay in range, the delivery order followed by the pending ring
contents is exactly the push order, the consumer only exits with an empty
queue after a join request, and every sink has received a subsequence of the
delivered events. -/
def ltInv (s : LTState) : Prop :=
  s.queueIndex < logQueueSize ∧
  s.queueSize ≤ logQueueSize ∧
  s.delivered ++ ringList s = s.pushed ∧
  (s.exited = true → s.queueSize = 0 ∧ s.joinRequested = true) ∧
  (∀ l, (s.received l).Sublist s.delivered)

theorem ltInv_init (q0 : Nat → FMEvent) : ltInv (ltInit q0) := by
  refine ⟨by simp [ltInit, logQueueSize], by simp [ltInit, logQueueSize], rfl,
    by simp [ltInit], ?_⟩
  intro l
  exact List.Sublist.refl _

theorem ringList_push (s : LTState) (e : FMEvent) (hle : s.queueSize < logQueueSize) :
    ringList { s with
      queue := fun j =>
        if j = (s.queueIndex + s.queueSize) % logQueueSize then e else s.queue j,
      queueSize := s.queueSize + 1,
      pushed := s.pushed ++ [e] } = ringList s ++ [e] := by
  unfold ringList
  simp only [List.range_succ, List.map_append, List.map_cons, List.map_nil]
  congr 1
  · apply List.map_congr_left
    intro k hk
    have hk' := List.mem_range.mp hk
    have hne : (s.queueIndex + k) % logQueueSize
        ≠ (s.queueIndex + s.queueSize) % logQueueSize := by
      unfold logQueueSize at *
      omega
    simp [hne]

theorem ringList_cons (q : Nat → FMEvent) (idx n : Nat) (hidx : idx < logQueueSize) :
    (List.range (n + 1)).map (fun k => q ((idx + k) % logQueueSize)) =
      q idx ::
        (List.range n).map
          (fun k => q (((idx + 1) % logQueueSize + k) % logQueueSize)) := by
  rw [List.range_succ_eq_map]
  simp only [List.map_cons, List.map_map]
  congr 1
  · rw [Nat.add_zero, Nat.mod_eq_of_lt hidx]
  · apply List.map_congr_left
    intro k _
    simp only [Function.comp]
    congr 1
    unfold logQueueSize
    omega

theorem ltStep_inv {s s' : LTState} (st : LTStep s s') (h : ltInv s) : ltInv s' := by
  obtain ⟨hidx, hsz, hfifo, hexit, hrecv⟩ := h
  cases st with
  | push e hle hx =>
    refine ⟨hidx, ?_, ?_, by simp [hx], hrecv⟩
    · show s.queueSize + 1 ≤ logQueueSize
      unfold logQueueSize at *
      omega
    · show s.delivered ++ ringList _ = s.pushed ++ [e]
      rw [ringList_push s e hle, ← List.append_assoc, hfifo]
  | setJoin =>
    exact ⟨hidx, hsz, hfifo, fun he => ⟨(hexit he).1, rfl⟩, hrecv⟩
  | consume h0 hx =>
    have hs : s.queueSize = (s.queueSize - 1) + 1 := by omega
    have key : s.queue s.queueIndex ::
        (List.range (s.queueSize - 1)).map
          (fun k => s.queue (((s.queueIndex + 1) % logQueueSize + k) % logQueueSize))
        = ringList s := by
      unfold ringList
      rw [hs]
      exact (ringList_cons s.queue s.queueIndex (s.queueSize - 1) hidx).symm
    refine ⟨Nat.mod_lt _ (by norm_num [logQueueSize]), ?_, ?_, by simp [hx], ?_⟩
    · show s.queueSize - 1 ≤ logQueueSize
      omega
    · show (s.delivered ++ [s.queue s.queueIndex]) ++
        (List.range (s.queueSize - 1)).map
          (fun k => s.queue (((s.queueIndex + 1) % logQueueSize + k) % logQueueSize))
        = s.pushed
      rw [List.append_assoc, List.singleton_append, key, hfifo]
    · intro l
      show (if l ∈ s.loggerList then s.received l ++ [s.queue s.queueIndex]
        else s.received l).Sublist (s.delivered ++ [s.queue s.queueIndex])
      split
      · exact List.Sublist.append (hrecv l) (List.Sublist.refl _)
      · exact (hrecv l).trans (List.sublist_append_left _ _)
  | exitRun h0 hj hx =>
    exact ⟨hidx, hsz, hfifo, fun _ => ⟨h0, hj⟩, hrecv⟩
  | setSinks ls hls =>
    exact ⟨hidx, hsz, hfifo, hexit, hrecv⟩

theorem ltReach_inv {q0 : Nat → FMEvent} {s : LTState}
    (h : LTReach (ltInit q0) s) : ltInv s := by
  induction h with
  | refl => exact ltInv_init q0
  | tail _ st ih => exact ltStep_inv st ih

theorem applyAction_step {s s' : LTState} {a : LTAction}
    (h : applyAction s a = some s') : LTStep s s' := by
  cases a with
  | push e =>
    simp only [applyAction] at h
    split at h
    · rename_i hcond
      cases h
      exact LTStep.push s e hcond.1 hcond.2
    · cases h
  | setJoin =>
    simp only [applyAction] at h
    cases h
    exact LTStep.setJoin s
  | consume =>
    simp only [applyAction] at h
    split at h
    · rename_i hcond
      cases h
      exact LTStep.consume s hcond.1 hcond.2
    · cases h
  | exitRun =>
    simp only [applyAction] at h
    split at h
    · rename_i hcond
      cases h
      exact LTStep.exitRun s hcond.1 hcond.2.1 hcond.2.2
    · cases h
  | setSinks ls =>
    simp only [applyAction] at h
    split at h
    · rename_i hcond
      cases h
      exact LTStep.setSinks s ls hcond
    · cases h

theorem applyTrace_reach {tr : List LTAction} {s s' : LTState}
    (h : applyTrace s tr = some s') : LTReach s s' := by
  induction tr generalizing s with
  | nil =>
    cases h
    exact Relation.ReflTransGen.refl
  | cons a rest ih =>
    unfold applyTrace at h
    cases ha : applyAction s a with
    | none => rw [ha] at h; cases h
    | some s1 =>
      rw [ha] at h
      exact Relation.ReflTransGen.head (applyAction_step ha) (ih h)

/-- Ring storage for concrete traces (malloc contents are irrelevant). -/
def q0c : Nat → FMEvent := fun _ => zeroEvent

/-- A trace pushing 17 tagged events (more than the queue capacity of 16) with
one interleaved dequeue, then the join request, the drain and the exit. -/
def tr17 : List LTAction :=
  ((List.range 16).map (fun k => LTAction.push (mkEv (k + 1)))) ++
  [LTAction.consume, LTAction.push (mkEv 17), LTAction.setJoin] ++
  List.replicate 16 LTAction.consume ++ [LTAction.exitRun]

/-- Final state of `tr17`. -/
def sK : LTState := (applyTrace (ltInit q0c) tr17).getD (ltInit q0c)

/-- A trace installing sink 5, pushing two events and consuming one. -/
def trC1 : List LTAction :=
  [.setSinks [5], .push (mkEv 1), .push (mkEv 2), .consume]

/-- Final state of `trC1`. -/
def sC1 : LTState := (applyTrace (ltInit q0c) trC1).getD (ltInit q0c)

/-- C1: in every state reachable by any interleaving of producer pushes with
the consumer of the bounded FIFO ring buffer, the sequence of delivered events
is a prefix of the sequence of pushed events (single consumer, FIFO), and
every sink has observed a subsequence of the delivered sequence — so no sink
sees two events out of their relative push order. -/
theorem loggingThread_fifo_order (q0 : Nat → FMEvent) (s : LTState)
    (h : LTReach (ltInit q0) s) :
    (∃ rest, s.pushed = s.delivered ++ rest) ∧
    (∀ l, (s.received l).Sublist s.delivered) := by
  have hi := ltReach_inv h
  exact ⟨⟨ringList s, hi.2.2.1.symm⟩, hi.2.2.2.2⟩

theorem loggingThread_fifo_order_witness :
    ((∃ rest, sC1.pushed = sC1.delivered ++ rest) ∧
      (∀ l, (sC1.received l).Sublist sC1.delivered)) ∧
    sC1.delivered = [mkEv 1] ∧ sC1.pushed = [mkEv 1, mkEv 2] ∧
    sC1.received 5 = [mkEv 1] := by
  have hr : applyTrace (ltInit q0c) trC1 = some sC1 := rfl
  exact ⟨loggingThread_fifo_order q0c sC1 (applyTrace_reach hr), rfl, rfl, rfl⟩

/-- C2: whenever the consumer's `run()` loop has exited, every pushed event
has been delivered (no loss: the loop keeps draining while the queue is
non-empty even after the join request), the queue is empty, and the join
request was set — the consumer exits only when the queue is empty and the
join request is set. This holds for any number of pushed events, including
more than the queue capacity of 16. -/
theorem loggingThread_drains_on_join (q0 : Nat → FMEvent) (s : LTState)
    (h : LTReach (ltInit q0) s) (hx : s.exited = true) :
    s.delivered = s.pushed ∧ s.queueSize = 0 ∧ s.joinRequested = true := by
  have hi := ltReach_inv h
  have h0 := (hi.2.2.2.1 hx).1
  refine ⟨?_, h0, (hi.2.2.2.1 hx).2⟩
  have hr : ringList s = [] := by
    unfold ringList
    rw [h0]
    rfl
  calc s.delivered = s.delivered ++ ringList s := by rw [hr, List.append_nil]
    _ = s.pushed := hi.2.2.1

theorem loggingThread_drains_on_join_witness :
    (sK.delivered = sK.pushed ∧ sK.queueSize = 0 ∧ sK.joinRequested = true) ∧
    sK.pushed.length = 17 ∧ sK.exited = true := by
  have hr : applyTrace (ltInit q0c) tr17 = some sK := rfl
  exact ⟨loggingThread_drains_on_join q0c sK (applyTrace_reach hr) rfl, rfl, rfl⟩

/-- C7 (code bug, failing input): with a single sink installed — necessarily
at position 0, the first-installed slot — `removeLogger` returns false and
leaves the sink list unchanged, because its search loop
`for (int i = d->m_loggerCount; i > 0; --i)` scans indices `count .. 1` and
never index 0 (it even reads the one-past-the-end slot `m_loggers[count]`,
kept null by the debug assertions). A sink at any later position is removed
fine, which shows the off-by-one: `installLogger` fills from index 0 upward,
so removability of every installed sink is the evident intent. -/
theorem removeLogger_misses_first_sink :
    (removeLogger (installLogger emptyLoggers (some 7)).1 (some 7)).2 = false ∧
    (removeLogger (installLogger emptyLoggers (some 7)).1 (some 7)).1
      = (installLogger emptyLoggers (some 7)).1 ∧
    (installLogger emptyLoggers (some 7)).1.loggers 0 = some 7 ∧
    (installLogger emptyLoggers (some 7)).1.count = 1 ∧
    (removeLogger
      (installLogger (installLogger emptyLoggers (some 7)).1 (some 8)).1
      (some 8)).2 = true ∧
    (removeLogger
      (installLogger (installLogger emptyLoggers (some 7)).1 (some 8)).1
      (some 8)).1.count = 1 := by
  exact ⟨rfl, rfl, rfl, rfl, rfl, rfl⟩

theorem wmFold_claim (nt lf : Bool) (cbs : List WMCallback) :
    ∀ (s : WMState) (c : Nat),
      s.frameEvent.number = c % quint32Mod →
      ((cbs.foldl (wmStep nt lf) s).gpuResourcesInitialized
          = (cbs.foldl claimFrameStep (s.gpuResourcesInitialized, c)).1 ∧
        (cbs.foldl (wmStep nt lf) s).frameEvent.number
          = (cbs.foldl claimFrameStep (s.gpuResourcesInitialized, c)).2 % quint32Mod) := by
  induction cbs with
  | nil => exact fun s c h2 => ⟨rfl, h2⟩
  | cons cb rest ih =>
    intro s c h2
    simp only [List.foldl_cons]
    cases cb with
    | sceneGraphInitialized =>
      by_cases hi : s.gpuResourcesInitialized
      · simpa [wmStep, claimFrameStep, hi] using ih s c h2
      · simp only [Bool.not_eq_true] at hi
        simpa [wmStep, claimFrameStep, hi, initializeGpuResources] using
          ih (initializeGpuResources nt s) 0 (by simp [initializeGpuResources])
    | sceneGraphInvalidated =>
      by_cases hi : s.gpuResourcesInitialized
      · simpa [wmStep, claimFrameStep, hi, finalizeGpuResources] using
          ih (finalizeGpuResources s) 0 (by simp [finalizeGpuResources])
      · simp only [Bool.not_eq_true] at hi
        simpa [wmStep, claimFrameStep, hi] using ih s c h2
    | beforeSynchronizing =>
      simpa [wmStep, claimFrameStep] using ih s c h2
    | afterSynchronizing syncNs =>
      by_cases hi : s.gpuResourcesInitialized
      · simpa [wmStep, claimFrameStep, hi] using
          ih { s with frameEvent := { s.frameEvent with syncTime := syncNs } } c h2
      · simp only [Bool.not_eq_true] at hi
        simpa [wmStep, claimFrameStep, hi] using ih s c h2
    | beforeRendering w h =>
      simpa [wmStep, claimFrameStep] using ih { s with frameSize := (w, h) } c h2
    | afterRendering renderNs gpuNs =>
      by_cases hi : s.gpuResourcesInitialized
      · have h2' : ((s.frameEvent.number + 1) % quint32Mod) = (c + 1) % quint32Mod := by
          rw [h2, Nat.mod_add_mod]
        simpa [wmStep, claimFrameStep, hi] using
          ih { s with frameEvent := { s.frameEvent with
                renderTime := renderNs,
                gpuTime := if s.gpuTimerAvailable then gpuNs else 0,
                number := (s.frameEvent.number + 1) % quint32Mod } } (c + 1) h2'
      · simp only [Bool.not_eq_true] at hi
        simpa [wmStep, claimFrameStep, hi] using ih s c h2
    | frameSwapped deltaNs swapNs =>
      by_cases hi : s.gpuResourcesInitialized
      · simpa [wmStep, claimFrameStep, hi] using
          ih { s with frameEvent := { s.frameEvent with
                deltaTime := deltaNs,
                swapTime := if lf then swapNs else s.frameEvent.swapTime } } c h2
      · simp only [Bool.not_eq_true] at hi
        simpa [wmStep, claimFrameStep, hi, initializeGpuResources] using
          ih (initializeGpuResources nt s) 0 (by simp [initializeGpuResources])
    | sceneGraphAboutToStop =>
      by_cases hi : s.gpuResourcesInitialized
      · simpa [wmStep, claimFrameStep, hi, finalizeGpuResources] using
          ih (finalizeGpuResources s) 0 (by simp [finalizeGpuResources])
      · simp only [Bool.not_eq_true] at hi
        simpa [wmStep, claimFrameStep, hi] using ih s c h2

/-- C10: the frame number counts AfterRender callbacks since the most recent
GPU-resource initialization — it is zeroed by `initializeGpuResources` and by
`finalizeGpuResources`, incremented (as a 32-bit counter) exactly when
`windowAfterRendering` runs with resources initialized, and over any callback
trace the monitor agrees with the claim-modelled ideal counter
`claimFrameCount`, so the count never persists across an
invalidation/reinitialization cycle. -/
theorem frameNumber_counts_renders_since_init
    (nt lf : Bool) (s : WMState) (id w h rNs gNs : Nat) (cbs : List WMCallback) :
    (initializeGpuResources nt s).frameEvent.number = 0 ∧
    (finalizeGpuResources s).frameEvent.number = 0 ∧
    (s.gpuResourcesInitialized = true →
      (wmStep nt lf s (.afterRendering rNs gNs)).frameEvent.number
        = (s.frameEvent.number + 1) % quint32Mod) ∧
    (s.gpuResourcesInitialized = false →
      (wmStep nt lf s (.afterRendering rNs gNs)).frameEvent.number
        = s.frameEvent.number) ∧
    (wmRun nt lf id w h cbs).gpuResourcesInitialized = (claimFrameCount cbs).1 ∧
    (wmRun nt lf id w h cbs).frameEvent.number
      = (claimFrameCount cbs).2 % quint32Mod := by
  refine ⟨rfl, rfl, fun hi => by simp [wmStep, hi], fun hi => by simp [wmStep, hi],
    ?_, ?_⟩
  · exact (wmFold_claim nt lf cbs (wmInit id w h) 0 (by simp [wmInit])).1
  · exact (wmFold_claim nt lf cbs (wmInit id w h) 0 (by simp [wmInit])).2

/-- A callback trace with an invalidation/reinitialization cycle. -/
def cbsW : List WMCallback :=
  [.sceneGraphInitialized, .afterRendering 5 6, .afterRendering 7 8,
   .sceneGraphInvalidated, .frameSwapped 1 2, .afterRendering 3 4]

theorem frameNumber_counts_renders_since_init_witness :
    (wmRun false false 1 4 3 cbsW).frameEvent.number = 1 ∧
    (claimFrameCount cbsW).2 = 1 ∧
    (wmStep false false (initializeGpuResources false (wmInit 1 4 3))
      (.afterRendering 5 6)).frameEvent.number = 1 := by
  have h := frameNumber_counts_renders_since_init false false
    (initializeGpuResources false (wmInit 1 4 3)) 1 4 3 5 6 cbsW
  refine ⟨?_, rfl, ?_⟩
  · rw [h.2.2.2.2.2]
    rfl
  · rw [h.2.2.1 rfl]
    rfl
theorem digitChar_toNat (m : Nat) : (digitChar m).toNat = m % 10 + 48 := by
  have h : m % 10 < 10 := Nat.mod_lt _ (by norm_num)
  unfold digitChar
  interval_cases hm : m % 10 <;> rfl

theorem isDigitC_digitChar (m : Nat) : isDigitC (digitChar m) = true := by
  have h : m % 10 < 10 := Nat.mod_lt _ (by norm_num)
  unfold digitChar isDigitC
  interval_cases hm : m % 10 <;> rfl

theorem parseFieldStep_digitChar (a m : Nat) :
    parseFieldStep a (digitChar m) = a * 10 + m % 10 := by
  rw [parseFieldStep, isDigitC_digitChar, if_pos rfl, digitChar_toNat]
  omega

theorem take_set_of_le {α : Type} (t : List α) (i n : Nat) (c : α) (h : n ≤ i) :
    (t.set i c).take n = t.take n := by
  apply List.ext_getElem?
  intro j
  rw [List.getElem?_take, List.getElem?_take]
  by_cases hj : j < n
  · rw [if_pos hj, if_pos hj, List.getElem?_set_ne]
    omega
  · rw [if_neg hj, if_neg hj]

theorem intToTextLoop_rep (w : Nat) :
    ∀ (m : Nat) (t : List Char), w + 1 ≤ t.length →
      ∃ ds : List Char,
        (intToTextLoop m t (w + 1)).1
          = t.take (intToTextLoop m t (w + 1)).2 ++ ds ++ t.drop (w + 1) ∧
        ds.length = w + 1 - (intToTextLoop m t (w + 1)).2 ∧
        (∀ c ∈ ds, isDigitC c = true) ∧
        ds.foldl parseFieldStep 0 = m % 10 ^ (w + 1 - (intToTextLoop m t (w + 1)).2) ∧
        (intToTextLoop m t (w + 1)).2 ≤ w ∧
        (0 < (intToTextLoop m t (w + 1)).2 →
          m < 10 ^ (w + 1 - (intToTextLoop m t (w + 1)).2)) := by
  induction w with
  | zero =>
    intro m t hlen
    have h0 : intToTextLoop m t 1 = (t.set 0 (digitChar m), 0) := by
      simp [intToTextLoop]
    rw [h0]
    refine ⟨[digitChar m], ?_, rfl, ?_, ?_, Nat.le_refl 0, by omega⟩
    · rw [List.set_eq_take_cons_drop _ (by omega)]
      simp
    · intro c hc
      rw [List.mem_singleton] at hc
      rw [hc]
      exact isDigitC_digitChar m
    · show List.foldl parseFieldStep 0 [digitChar m] = m % 10 ^ 1
      rw [List.foldl_cons, List.foldl_nil, parseFieldStep_digitChar, pow_one]
      omega
  | succ w ih =>
    intro m t hlen
    by_cases hm : m / 10 = 0
    · have h0 : intToTextLoop m t (w + 1 + 1) = (t.set (w + 1) (digitChar m), w + 1) := by
        simp [intToTextLoop, hm]
      rw [h0]
      have hm10 : m < 10 := by omega
      refine ⟨[digitChar m], ?_, by show (1 : Nat) = w + 1 + 1 - (w + 1); omega,
        ?_, ?_, Nat.le_refl _, ?_⟩
      · rw [List.set_eq_take_cons_drop _ (by omega)]
        simp
      · intro c hc
        rw [List.mem_singleton] at hc
        rw [hc]
        exact isDigitC_digitChar m
      · show List.foldl parseFieldStep 0 [digitChar m] = m % 10 ^ (w + 1 + 1 - (w + 1))
        have he : w + 1 + 1 - (w + 1) = 1 := by omega
        rw [List.foldl_cons, List.foldl_nil, parseFieldStep_digitChar, he, pow_one]
        omega
      · intro _
        show m < 10 ^ (w + 1 + 1 - (w + 1))
        have he : w + 1 + 1 - (w + 1) = 1 := by omega
        rw [he, pow_one]
        exact hm10
    · have h0 : intToTextLoop m t (w + 1 + 1)
          = intToTextLoop (m / 10) (t.set (w + 1) (digitChar m)) (w + 1) := by
        simp [intToTextLoop, hm]
      rw [h0]
      set t' := t.set (w + 1) (digitChar m) with ht'
      have hlen' : w + 1 ≤ t'.length := by
        rw [ht', List.length_set]
        omega
      obtain ⟨ds, hrep, hdslen, hdig, hfold, hr2, hlt⟩ := ih (m / 10) t' hlen'
      set r2 := (intToTextLoop (m / 10) t' (w + 1)).2 with hr2def
      have htake : t'.take r2 = t.take r2 :=
        take_set_of_le t (w + 1) r2 (digitChar m) (by omega)
      have hset : t' = t.take (w + 1) ++ digitChar m :: t.drop (w + 1 + 1) := by
        rw [ht', List.set_eq_take_cons_drop _ (by omega)]
      have hdrop : t'.drop (w + 1) = digitChar m :: t.drop (w + 1 + 1) := by
        rw [hset, List.drop_append_eq_append_drop]
        have hlt1 : (List.take (w + 1) t).length = w + 1 := by
          rw [List.length_take]
          omega
        rw [List.drop_of_length_le (by omega), hlt1]
        simp
      refine ⟨ds ++ [digitChar m], ?_, ?_, ?_, ?_, by omega, ?_⟩
      · rw [hrep, htake, hdrop]
        simp [List.append_assoc]
      · rw [List.length_append, hdslen, List.length_singleton]
        omega
      · intro c hc
        rw [List.mem_append, List.mem_singleton] at hc
        cases hc with
        | inl h => exact hdig c h
        | inr h => rw [h]; exact isDigitC_digitChar m
      · rw [List.foldl_append, List.foldl_cons, List.foldl_nil, hfold,
          parseFieldStep_digitChar]
        have he : w + 1 + 1 - r2 = (w + 1 - r2) + 1 := by omega
        rw [he, pow_succ]
        have hx := @Nat.mod_mul 10 (10 ^ (w + 1 - r2)) m
        have hmod : m % 10 < 10 := Nat.mod_lt _ (by norm_num)
        calc (m / 10) % 10 ^ (w + 1 - r2) * 10 + m % 10
            = m % 10 + 10 * ((m / 10) % 10 ^ (w + 1 - r2)) := by ring
          _ = m % (10 * 10 ^ (w + 1 - r2)) := hx.symm
          _ = m % (10 ^ (w + 1 - r2) * 10) := by rw [Nat.mul_comm]
      · intro hpos
        have hlt' := hlt hpos
        have he : w + 1 + 1 - r2 = (w + 1 - r2) + 1 := by omega
        rw [he, pow_succ]
        have hdm := Nat.div_add_mod m 10
        have hmod : m % 10 < 10 := Nat.mod_lt _ (by norm_num)
        have : m = 10 * (m / 10) + m % 10 := by omega
        calc m = 10 * (m / 10) + m % 10 := this
          _ < 10 * (m / 10) + 10 := by omega
          _ = 10 * (m / 10 + 1) := by ring
          _ ≤ 10 * 10 ^ (w + 1 - r2) := by
              have : m / 10 + 1 ≤ 10 ^ (w + 1 - r2) := hlt'
              exact Nat.mul_le_mul_left 10 this
          _ = 10 ^ (w + 1 - r2) * 10 := by ring

theorem foldl_parseFieldStep_space (n a : Nat) :
    List.foldl parseFieldStep a (List.replicate n ' ') = a := by
  induction n with
  | zero => rfl
  | succ k ih =>
    rw [List.replicate_succ, List.foldl_cons]
    have hsp : parseFieldStep a ' ' = a := rfl
    rw [hsp]
    exact ih

/-- C5: `integerMetricToText` writes the value as decimal digits right aligned
into the last `width` bytes (all other positions of the caller's buffer are
untouched, as the take/append/drop decomposition shows) and returns the unused
width; on a space-filled field, parsing the field back as decimal recovers
`v % 10 ^ w` — so exactly `v` whenever the width can hold all digits of `v` —
and a value too wide for the budget returns 0, silently truncating the most
significant digits; `integerMetricToText 42 buf 5` yields `"   42"` and 3. -/
theorem integerMetricToText_roundtrip (v w : Nat) (t : List Char)
    (hw : 0 < w) (hl : w ≤ t.length) :
    (integerMetricToText v t w).1.length = t.length ∧
    (integerMetricToText v t w).2 < w ∧
    (∃ ds, (integerMetricToText v t w).1
        = t.take (integerMetricToText v t w).2 ++ ds ++ t.drop w ∧
      ds.length = w - (integerMetricToText v t w).2 ∧
      (∀ c ∈ ds, isDigitC c = true)) ∧
    parseField (integerMetricToText v (List.replicate w ' ') w).1 = v % 10 ^ w ∧
    (v < 10 ^ w → parseField (integerMetricToText v (List.replicate w ' ') w).1 = v) ∧
    (10 ^ (w - 1) ≤ v → (integerMetricToText v t w).2 = 0) ∧
    integerMetricToText 42 (List.replicate 5 ' ') 5 = ("   42".toList, 3) := by
  obtain ⟨w', rfl⟩ : ∃ w', w = w' + 1 := ⟨w - 1, by omega⟩
  simp only [integerMetricToText]
  obtain ⟨ds, hrep, hdslen, hdig, hfold, hr2, hlt⟩ := intToTextLoop_rep w' v t hl
  obtain ⟨es, hrep2, heslen, hedig, hefold, her2, helt⟩ :=
    intToTextLoop_rep w' v (List.replicate (w' + 1) ' ') (by simp)
  have hparse : parseField (intToTextLoop v (List.replicate (w' + 1) ' ') (w' + 1)).1
      = v % 10 ^ (w' + 1 - (intToTextLoop v (List.replicate (w' + 1) ' ') (w' + 1)).2) := by
    rw [hrep2, List.take_replicate, List.drop_replicate]
    have hmin : min (intToTextLoop v (List.replicate (w' + 1) ' ') (w' + 1)).2 (w' + 1)
        = (intToTextLoop v (List.replicate (w' + 1) ' ') (w' + 1)).2 := by omega
    have hz : w' + 1 - (w' + 1) = 0 := by omega
    rw [hmin, hz, List.replicate_zero, List.append_nil, parseField,
      List.foldl_append, foldl_parseFieldStep_space, hefold]
  refine ⟨?_, by omega, ⟨ds, hrep, hdslen, hdig⟩, ?_, ?_, ?_, by decide⟩
  · rw [hrep, List.length_append, List.length_append, List.length_take,
      List.length_drop, hdslen]
    omega
  · show parseField (intToTextLoop v (List.replicate (w' + 1) ' ') (w' + 1)).1
      = v % 10 ^ (w' + 1)
    rw [hparse]
    by_cases h0 : (intToTextLoop v (List.replicate (w' + 1) ' ') (w' + 1)).2 = 0
    · rw [h0]
      norm_num
    · have hv := helt (by omega)
      have hle : 10 ^ (w' + 1 - (intToTextLoop v (List.replicate (w' + 1) ' ') (w' + 1)).2)
          ≤ 10 ^ (w' + 1) :=
        Nat.pow_le_pow_right (by norm_num) (by omega)
      rw [Nat.mod_eq_of_lt hv, Nat.mod_eq_of_lt (lt_of_lt_of_le hv hle)]
  · intro hvw
    show parseField (intToTextLoop v (List.replicate (w' + 1) ' ') (w' + 1)).1 = v
    rw [hparse]
    by_cases h0 : (intToTextLoop v (List.replicate (w' + 1) ' ') (w' + 1)).2 = 0
    · rw [h0]
      exact Nat.mod_eq_of_lt (by simpa using hvw)
    · exact Nat.mod_eq_of_lt (helt (by omega))
  · intro hge
    by_contra h0
    have hv := hlt (by omega)
    have hle : 10 ^ (w' + 1 - (intToTextLoop v t (w' + 1)).2) ≤ 10 ^ w' :=
      Nat.pow_le_pow_right (by norm_num) (by omega)
    have : v < 10 ^ w' := lt_of_lt_of_le hv hle
    have hw'' : w' + 1 - 1 = w' := by omega
    rw [hw''] at hge
    omega

theorem integerMetricToText_roundtrip_witness :
    parseField (integerMetricToText 42 (List.replicate 5 ' ') 5).1 = 42 ∧
    integerMetricToText 42 (List.replicate 5 ' ') 5 = ("   42".toList, 3) := by
  have h := integerMetricToText_roundtrip 42 5 (List.replicate 5 ' ')
    (by norm_num) (by simp)
  exact ⟨h.2.2.2.2.1 (by norm_num), h.2.2.2.2.2.2⟩

theorem timeIntLoop_untouched (w : Nat) :
    ∀ (m : Nat) (t : List Char),
      (timeIntLoop m t (w + 1)).1.length = t.length ∧
      (timeIntLoop m t (w + 1)).2 ≤ w ∧
      ∀ j, (j < (timeIntLoop m t (w + 1)).2 ∨ w + 1 ≤ j) →
        (timeIntLoop m t (w + 1)).1[j]? = t[j]? := by
  induction w with
  | zero =>
    intro m t
    have h0 : timeIntLoop m t 1 = (t.set 0 (digitChar m), 0) := by
      simp [timeIntLoop]
    rw [h0]
    refine ⟨List.length_set t 0 (digitChar m), Nat.le_refl 0, ?_⟩
    intro j hj
    rcases hj with h | h
    · omega
    · exact List.getElem?_set_ne (by omega)
  | succ w ih =>
    intro m t
    by_cases hm : m / 10 ≠ 0
    · have h0 : timeIntLoop m t (w + 1 + 1)
          = timeIntLoop (m / 10) (t.set (w + 1) (digitChar m)) (w + 1) := by
        simp [timeIntLoop, hm]
      rw [h0]
      obtain ⟨hlen, hr2, hj⟩ := ih (m / 10) (t.set (w + 1) (digitChar m))
      refine ⟨by rw [hlen, List.length_set], by omega, ?_⟩
      intro j hcase
      have h1 : (timeIntLoop (m / 10) (t.set (w + 1) (digitChar m)) (w + 1)).1[j]?
          = (t.set (w + 1) (digitChar m))[j]? := by
        apply hj
        rcases hcase with h | h
        · exact Or.inl h
        · exact Or.inr (by omega)
      rw [h1]
      apply List.getElem?_set_ne
      rcases hcase with h | h
      · have := hr2
        omega
      · omega
    · have h0 : timeIntLoop m t (w + 1 + 1) = (t.set (w + 1) (digitChar m), w + 1) := by
        simp [timeIntLoop, hm]
      rw [h0]
      refine ⟨List.length_set t (w + 1) (digitChar m), Nat.le_refl _, ?_⟩
      intro j hj
      apply List.getElem?_set_ne
      rcases hj with h | h
      · omega
      · omega

theorem timeZeroTail_untouched (t : List Char) (w i : Nat) (hw : 0 < w) :
    (timeZeroTail t w i).1.length = t.length ∧
    (timeZeroTail t w i).2 < w ∧
    ∀ j, (j < (timeZeroTail t w i).2 ∨ w ≤ j) →
      (timeZeroTail t w i).1[j]? = t[j]? := by
  by_cases hi : i = 1
  · subst hi
    by_cases h10 : w - 1 = 0
    · have h0 : timeZeroTail t w 1 = (t.set (w - 1) '0', 0) := by
        simp [timeZeroTail, h10]
      rw [h0]
      refine ⟨List.length_set t (w - 1) '0', hw, ?_⟩
      intro j hj
      apply List.getElem?_set_ne
      omega
    · by_cases h20 : w - 1 - 1 = 0
      · have e0 : w - 2 = 0 := by omega
        have h0 : timeZeroTail t w 1 = ((t.set (w - 1) '0').set 0 '.', 0) := by
          simp [timeZeroTail, h10, h20, e0]
        rw [h0]
        refine ⟨by rw [List.length_set, List.length_set], hw, ?_⟩
        intro j hj
        rw [List.getElem?_set_ne (by omega), List.getElem?_set_ne (by omega)]
      · have e1 : w - 1 - 1 = w - 2 := by omega
        have e2 : ¬ w - 2 = 0 := by omega
        have e3 : w - 2 - 1 = w - 3 := by omega
        have h0 : timeZeroTail t w 1
            = (((t.set (w - 1) '0').set (w - 2) '.').set (w - 3) '0', w - 3) := by
          simp [timeZeroTail, h10, h20, e1, e2, e3]
        rw [h0]
        refine ⟨by rw [List.length_set, List.length_set, List.length_set],
          by omega, ?_⟩
        intro j hj
        rw [List.getElem?_set_ne (by omega), List.getElem?_set_ne (by omega),
          List.getElem?_set_ne (by omega)]
  · by_cases h20 : w - 1 = 0
    · have h0 : timeZeroTail t w i = (t.set (w - 1) '.', 0) := by
        simp [timeZeroTail, hi, h20]
      rw [h0]
      refine ⟨List.length_set t (w - 1) '.', hw, ?_⟩
      intro j hj
      apply List.getElem?_set_ne
      omega
    · have e2 : w - 1 - 1 = w - 2 := by omega
      have h0 : timeZeroTail t w i
          = ((t.set (w - 1) '.').set (w - 2) '0', w - 2) := by
        simp [timeZeroTail, hi, h20, e2]
      rw [h0]
      refine ⟨by rw [List.length_set, List.length_set], by omega, ?_⟩
      intro j hj
      rw [List.getElem?_set_ne (by omega), List.getElem?_set_ne (by omega)]

theorem timeMetricToText_untouched (m0 : Nat) (t : List Char) (W : Nat) (hW : 0 < W) :
    (timeMetricToText m0 t W).1.length = t.length ∧
    (timeMetricToText m0 t W).2 < W ∧
    ∀ j, (j < (timeMetricToText m0 t W).2 ∨ W ≤ j) →
      (timeMetricToText m0 t W).1[j]? = t[j]? := by
  obtain ⟨w1, rfl⟩ : ∃ w1, W = w1 + 1 := ⟨W - 1, by omega⟩
  cases w1 with
  | zero =>
    have h0 : timeMetricToText m0 t 1 = (t.set 0 (digitChar (m0 / 10000)), 0) := by
      simp [timeMetricToText]
    rw [h0]
    refine ⟨List.length_set t 0 _, by omega, ?_⟩
    intro j hj
    apply List.getElem?_set_ne
    omega
  | succ w2 =>
    by_cases hm1 : (m0 / 10000) / 10 = 0
    · have h0 : timeMetricToText m0 t (w2 + 1 + 1)
          = timeZeroTail (t.set (w2 + 1) (digitChar (m0 / 10000))) (w2 + 1) 1 := by
        simp [timeMetricToText, hm1]
      rw [h0]
      obtain ⟨hlen, hr2, hj⟩ := timeZeroTail_untouched
        (t.set (w2 + 1) (digitChar (m0 / 10000))) (w2 + 1) 1 (by omega)
      refine ⟨by rw [hlen, List.length_set], by omega, ?_⟩
      intro j hcase
      rw [hj j (by omega)]
      exact List.getElem?_set_ne (by omega)
    · by_cases h2 : w2 = 0
      · subst h2
        have h0 : timeMetricToText m0 t 2
            = ((t.set 1 (digitChar (m0 / 10000))).set 0
                (digitChar ((m0 / 10000) / 10)), 0) := by
          simp [timeMetricToText, hm1]
        rw [h0]
        refine ⟨by rw [List.length_set, List.length_set], by omega, ?_⟩
        intro j hj
        rw [List.getElem?_set_ne (by omega), List.getElem?_set_ne (by omega)]
      · by_cases hm2 : (m0 / 10000) / 10 / 10 = 0
        · have h0 : timeMetricToText m0 t (w2 + 1 + 1)
              = timeZeroTail ((t.set (w2 + 1) (digitChar (m0 / 10000))).set w2
                  (digitChar ((m0 / 10000) / 10))) w2 2 := by
            simp [timeMetricToText, hm1, hm2, h2]
          rw [h0]
          obtain ⟨hlen, hr2, hj⟩ := timeZeroTail_untouched
            ((t.set (w2 + 1) (digitChar (m0 / 10000))).set w2
              (digitChar ((m0 / 10000) / 10))) w2 2 (by omega)
          refine ⟨by rw [hlen, List.length_set, List.length_set], by omega, ?_⟩
          intro j hcase
          rw [hj j (by omega), List.getElem?_set_ne (by omega),
            List.getElem?_set_ne (by omega)]
        · by_cases h3 : w2 - 1 = 0
          · have h0 : timeMetricToText m0 t (w2 + 1 + 1)
                = (((t.set (w2 + 1) (digitChar (m0 / 10000))).set w2
                    (digitChar ((m0 / 10000) / 10))).set (w2 - 1) '.', 0) := by
              simp [timeMetricToText, hm1, hm2, h2, h3]
            rw [h0]
            refine ⟨by rw [List.length_set, List.length_set, List.length_set],
              by omega, ?_⟩
            intro j hj
            rw [List.getElem?_set_ne (by omega), List.getElem?_set_ne (by omega),
              List.getElem?_set_ne (by omega)]
          · obtain ⟨w4, hw4⟩ : ∃ w4, w2 - 1 = w4 + 1 := ⟨w2 - 2, by omega⟩
            have h0 : timeMetricToText m0 t (w2 + 1 + 1)
                = timeIntLoop ((m0 / 10000) / 10 / 10)
                    (((t.set (w2 + 1) (digitChar (m0 / 10000))).set w2
                      (digitChar ((m0 / 10000) / 10))).set (w2 - 1) '.')
                    (w2 - 1) := by
              simp [timeMetricToText, hm1, hm2, h2, h3]
            rw [h0]
            obtain ⟨hlen, hr2, hj⟩ := timeIntLoop_untouched w4
              ((m0 / 10000) / 10 / 10)
              (((t.set (w2 + 1) (digitChar (m0 / 10000))).set w2
                (digitChar ((m0 / 10000) / 10))).set (w2 - 1) '.')
            rw [← hw4] at hlen hr2 hj
            refine ⟨by rw [hlen, List.length_set, List.length_set, List.length_set],
              by omega, ?_⟩
            intro j hcase
            rw [hj j (by omega), List.getElem?_set_ne (by omega),
              List.getElem?_set_ne (by omega), List.getElem?_set_ne (by omega)]

/-- C3 counterexample: `timeMetricToText` renders 15,000,000 ns (15 ms) in a
5-byte field as "15.00", not as the claimed "1.50" (which right aligned in 5
bytes would be " 1.50"). -/
theorem timeMetricToText_15ms_renders_15_00 :
    (timeMetricToText 15000000 (List.replicate 5 ' ') 5).1 = "15.00".toList ∧
    (timeMetricToText 15000000 (List.replicate 5 ' ') 5).1 ≠ " 1.50".toList := by
  exact ⟨by decide, by decide⟩

/-- C3 (amended): `timeMetricToText` renders a nanosecond value as
milliseconds with exactly two decimal digits, right aligned in the width
budget and never touching a byte at or beyond the budget nor below the
returned remaining width; `timeMetricToText 0 buf 4` writes "0.00",
`timeMetricToText 15000000 buf 5` writes "15.00" (15 ms; it is 1,500,000 ns
that renders "1.50"), and a width too narrow for the integer-millisecond part
deterministically truncates the most significant digits (123 ms at width 1
gives "0", at width 4 gives "3.00") rather than failing. -/
theorem timeMetricToText_ms_format (m0 : Nat) (t : List Char) (W : Nat)
    (hW : 0 < W) :
    ((timeMetricToText m0 t W).1.length = t.length ∧
      (timeMetricToText m0 t W).2 < W ∧
      ∀ j, (j < (timeMetricToText m0 t W).2 ∨ W ≤ j) →
        (timeMetricToText m0 t W).1[j]? = t[j]?) ∧
    timeMetricToText 0 (List.replicate 4 ' ') 4 = ("0.00".toList, 0) ∧
    timeMetricToText 15000000 (List.replicate 5 ' ') 5 = ("15.00".toList, 0) ∧
    timeMetricToText 1500000 (List.replicate 4 ' ') 4 = ("1.50".toList, 0) ∧
    timeMetricToText 123000000 (List.replicate 1 ' ') 1 = ("0".toList, 0) ∧
    timeMetricToText 123000000 (List.replicate 4 ' ') 4 = ("3.00".toList, 0) := by
  exact ⟨timeMetricToText_untouched m0 t W hW, by decide, by decide, by decide,
    by decide, by decide⟩

theorem timeMetricToText_ms_format_witness :
    (timeMetricToText 7777777 (List.replicate 8 ' ') 6).1.length = 8 ∧
    (timeMetricToText 7777777 (List.replicate 8 ' ') 6).2 < 6 ∧
    timeMetricToText 0 (List.replicate 4 ' ') 4 = ("0.00".toList, 0) := by
  have h := timeMetricToText_ms_format 7777777 (List.replicate 8 ' ') 6
    (by norm_num)
  refine ⟨?_, h.1.2.1, h.2.1⟩
  rw [h.1.1]
  rfl

theorem intToTextLoop_facts (w' m : Nat) (t : List Char) (hlen : w' + 1 ≤ t.length) :
    (intToTextLoop m t (w' + 1)).1.length = t.length ∧
    (intToTextLoop m t (w' + 1)).2 ≤ w' ∧
    ∀ n, w' + 1 ≤ n → (intToTextLoop m t (w' + 1)).1.drop n = t.drop n := by
  obtain ⟨ds, hrep, hdslen, _, _, hr2, _⟩ := intToTextLoop_rep w' m t hlen
  have hplen : (t.take (intToTextLoop m t (w' + 1)).2 ++ ds).length = w' + 1 := by
    rw [List.length_append, List.length_take, hdslen]
    omega
  refine ⟨?_, hr2, ?_⟩
  · rw [hrep, List.length_append, hplen, List.length_drop]
    omega
  · intro n hn
    rw [hrep, List.drop_append_eq_append_drop, hplen,
      List.drop_of_length_le (by rw [hplen]; omega), List.nil_append,
      List.drop_drop]
    congr 1
    omega

/-- C8 counterexample: with frame size 1920x1080 (width 1920, height 1080) and
a 9-cell slot, the windowSize slot renders "1920x1080" — the height is written
right aligned first and the width to its left, so the visible text is
`<width>x<height>`, not `<height>x<width>` as claimed ("1080x1920"). -/
theorem windowSize_renders_width_x_height :
    windowSizeText 1920 1080 9 = "1920x1080".toList ∧
    windowSizeText 1920 1080 9 ≠ "1080x1920".toList := by
  exact ⟨by decide, by decide⟩

/-- C8 (amended): the windowSize metric renders as `<width>x<height>` (height
right aligned, separator and width digits filled to the left) inside a single
slot; when exactly one cell remains after the height it keeps the separator
and drops the width digits, and when no cell remains it drops the separator
too; it never writes at or beyond the slot width inside the 32-byte scratch
buffer: frame size 1920x1080 renders "1920x1080" at width 9, "x1080" at width
5, and "1080" at width 4 — the x1920 part dropped, with no out-of-slot
write. -/
theorem windowSize_slot_degrade (fw fh sw : Nat) (hpos : 0 < sw)
    (hle : sw ≤ maxMetricWidth) :
    ((windowSizeBuf fw fh sw).length = maxMetricWidth ∧
      (windowSizeBuf fw fh sw).drop sw = List.replicate (maxMetricWidth - sw) ' ' ∧
      (windowSizeText fw fh sw).length = sw) ∧
    windowSizeText 1920 1080 9 = "1920x1080".toList ∧
    windowSizeText 1920 1080 5 = "x1080".toList ∧
    windowSizeText 1920 1080 4 = "1080".toList := by
  refine ⟨?_, by decide, by decide, by decide⟩
  have hmw : maxMetricWidth = 32 := rfl
  obtain ⟨sw', rfl⟩ : ∃ sw', sw = sw' + 1 := ⟨sw - 1, by omega⟩
  have hlen0 : sw' + 1 ≤ (List.replicate maxMetricWidth ' ').length := by
    rw [List.length_replicate]
    omega
  obtain ⟨h1len, h1r2, h1drop⟩ := intToTextLoop_facts sw' fh
    (List.replicate maxMetricWidth ' ') hlen0
  have hdropr : (intToTextLoop fh (List.replicate maxMetricWidth ' ')
      (sw' + 1)).1.drop (sw' + 1) = List.replicate (maxMetricWidth - (sw' + 1)) ' ' := by
    rw [h1drop (sw' + 1) (Nat.le_refl _), List.drop_replicate]
  have hmain : (windowSizeBuf fw fh (sw' + 1)).length = maxMetricWidth ∧
      (windowSizeBuf fw fh (sw' + 1)).drop (sw' + 1)
        = List.replicate (maxMetricWidth - (sw' + 1)) ' ' := by
    by_cases hA : 2 ≤ (intToTextLoop fh (List.replicate maxMetricWidth ' ') (sw' + 1)).2
    · have hbuf : windowSizeBuf fw fh (sw' + 1)
          = (intToTextLoop fw
              ((intToTextLoop fh (List.replicate maxMetricWidth ' ') (sw' + 1)).1.set
                ((intToTextLoop fh (List.replicate maxMetricWidth ' ') (sw' + 1)).2 - 1) 'x')
              ((intToTextLoop fh (List.replicate maxMetricWidth ' ') (sw' + 1)).2 - 1)).1 := by
        simp [windowSizeBuf, integerMetricToText, hA]
      obtain ⟨k, hk⟩ : ∃ k,
          (intToTextLoop fh (List.replicate maxMetricWidth ' ') (sw' + 1)).2 - 1
            = k + 1 :=
        ⟨(intToTextLoop fh (List.replicate maxMetricWidth ' ') (sw' + 1)).2 - 2, by omega⟩
      rw [hbuf]
      obtain ⟨h2len, _, h2drop⟩ := intToTextLoop_facts k fw
        ((intToTextLoop fh (List.replicate maxMetricWidth ' ') (sw' + 1)).1.set
          ((intToTextLoop fh (List.replicate maxMetricWidth ' ') (sw' + 1)).2 - 1) 'x')
        (by rw [List.length_set, h1len, List.length_replicate]; omega)
      rw [← hk] at h2len h2drop
      constructor
      · rw [h2len, List.length_set, h1len, List.length_replicate, hmw]
      · rw [h2drop (sw' + 1) (by omega), List.drop_set]
        rw [if_pos (by omega)]
        exact hdropr
    · by_cases hB : (intToTextLoop fh (List.replicate maxMetricWidth ' ') (sw' + 1)).2 = 1
      · have hbuf : windowSizeBuf fw fh (sw' + 1)
            = (intToTextLoop fh (List.replicate maxMetricWidth ' ') (sw' + 1)).1.set 0 'x' := by
          simp [windowSizeBuf, integerMetricToText, hA, hB]
        rw [hbuf]
        constructor
        · rw [List.length_set, h1len, List.length_replicate, hmw]
        · rw [List.drop_set, if_pos (by omega)]
          exact hdropr
      · have hbuf : windowSizeBuf fw fh (sw' + 1)
            = (intToTextLoop fh (List.replicate maxMetricWidth ' ') (sw' + 1)).1 := by
          simp [windowSizeBuf, integerMetricToText, hA, hB]
        rw [hbuf]
        exact ⟨by rw [h1len, List.length_replicate, hmw], hdropr⟩
  refine ⟨hmain.1, hmain.2, ?_⟩
  rw [windowSizeText, List.length_take, hmain.1]
  omega

theorem windowSize_slot_degrade_witness :
    (windowSizeBuf 1920 1080 4).length = maxMetricWidth ∧
    (windowSizeBuf 1920 1080 4).drop 4 = List.replicate 28 ' ' ∧
    windowSizeText 1920 1080 4 = "1080".toList := by
  have h := windowSize_slot_degrade 1920 1080 4 (by norm_num)
    (by norm_num [maxMetricWidth])
  exact ⟨h.1.1, h.1.2.1, h.2.2.2⟩

/-- Length of one row of the slot tables after `updSlots`. -/
theorem updSlots_length (f : FMEventType → List Slot) (ty : FMEventType)
    (sl : Slot) (t : FMEventType) :
    (updSlots f ty sl t).length
      = if t = ty then (f t).length + 1 else (f t).length := by
  unfold updSlots
  by_cases h : t = ty
  · rw [if_pos h, if_pos h]
    simp
  · rw [if_neg h, if_neg h]

/-- A successful metric scan returns a table entry whose name matches at `p`
and whose owning category is below capacity (both are checked by the loop
condition before it breaks). -/
theorem scanMetric_sound (sizes : FMEventType → Nat) (text : List Char) (p : Nat) :
    ∀ (entries : List MetricInfo) (j j' : Nat) (e : MetricInfo),
      scanMetric sizes text p j entries = some (j', e) →
      e ∈ entries ∧ sizes e.type < maxMetricsPerType ∧
        matchesAt text p e.name = true := by
  intro entries
  induction entries with
  | nil => intro j j' e h; cases h
  | cons n rest ih =>
    intro j j' e h
    rw [scanMetric] at h
    split at h
    · cases h
      rename_i hcond
      exact ⟨List.mem_cons_self n rest, hcond.1, hcond.2⟩
    · obtain ⟨hmem, hsz, hm⟩ := ih (j + 1) j' e h
      exact ⟨List.mem_cons_of_mem n hmem, hsz, hm⟩

/-- Universal characterization of how one loop iteration changes the slot
tables: either they are untouched (literal characters, `%%` escapes, keyword
matches, unknown placeholder names, full categories, capacity overflows) or a
metric scan succeeded on a below-capacity category with a width that fits the
remaining parsed-text capacity and exactly its slot was appended. -/
theorem stepParse_slots (kw : Nat → List Char) (text : List Char) (s : PState)
    (i : Nat) :
    (stepParse kw text s i).1.slots = s.slots ∨
    ∃ j e, scanMetric (fun t => (s.slots t).length) text
        (i + 1 + (parseWidth text i).2) 0 metricTable = some (j, e) ∧
      (s.slots e.type).length < maxMetricsPerType ∧
      (parseWidth text i).1.getD e.defaultWidth + s.chars < maxParsedTextSize ∧
      (stepParse kw text s i).1.slots = updSlots s.slots e.type
        ⟨j, s.chars, (parseWidth text i).1.getD e.defaultWidth⟩ := by
  unfold stepParse
  by_cases h1 : charAt text i ≠ '%'
  · rw [if_pos h1]
    left
    rfl
  · rw [if_neg h1]
    by_cases h2 : charAt text (i + 1) = '%'
    · rw [if_pos h2]
      left
      rfl
    · rw [if_neg h2]
      cases hk : scanKw text (i + 1) 0 keywordNames with
      | some pr =>
        obtain ⟨j0, name⟩ := pr
        dsimp only
        by_cases h3 : ((kw j0).take maxKeywordStringSize).length + s.chars
            < maxParsedTextSize
        · rw [if_pos h3]
          left
          rfl
        · rw [if_neg h3]
          left
          rfl
      | none =>
        dsimp only
        cases hm : scanMetric (fun t => (s.slots t).length) text
            (i + 1 + (parseWidth text i).2) 0 metricTable with
        | some pr =>
          obtain ⟨j0, e⟩ := pr
          dsimp only
          by_cases h3 : (parseWidth text i).1.getD e.defaultWidth + s.chars
              < maxParsedTextSize
          · rw [if_pos h3]
            right
            exact ⟨j0, e, rfl,
              (scanMetric_sound (fun t => (s.slots t).length) text
                (i + 1 + (parseWidth text i).2) metricTable 0 j0 e hm).2.1,
              h3, rfl⟩
          · rw [if_neg h3]
            left
            rfl
        | none =>
          left
          rfl

/-- One loop iteration keeps every category at or below its 16-slot
capacity. -/
theorem stepParse_slots_le (kw : Nat → List Char) (text : List Char)
    (s : PState) (i : Nat)
    (h : ∀ ty, (s.slots ty).length ≤ maxMetricsPerType) :
    ∀ ty, ((stepParse kw text s i).1.slots ty).length ≤ maxMetricsPerType := by
  intro ty
  rcases stepParse_slots kw text s i with heq | ⟨j, e, _, hcap, _, heq⟩
  · rw [heq]
    exact h ty
  · rw [heq, updSlots_length]
    by_cases hty : ty = e.type
    · rw [if_pos hty, hty]
      omega
    · rw [if_neg hty]
      exact h ty

/-- The whole parse loop keeps every category at or below its 16-slot
capacity, for any fuel, state and position. -/
theorem parseLoop_slots_le (kw : Nat → List Char) (text : List Char) :
    ∀ (fuel : Nat) (s : PState) (i : Nat),
      (∀ ty, (s.slots ty).length ≤ maxMetricsPerType) →
      ∀ ty, ((parseLoop kw text fuel s i).slots ty).length ≤ maxMetricsPerType := by
  intro fuel
  induction fuel with
  | zero =>
    intro s i h ty
    exact h ty
  | succ f ih =>
    intro s i h ty
    unfold parseLoop
    by_cases hi : i ≤ text.length
    · rw [if_pos hi]
      by_cases hstop : maxParsedTextSize - 1 ≤ (stepParse kw text s i).1.chars
      · rw [if_pos hstop]
        exact stepParse_slots_le kw text s i h ty
      · rw [if_neg hstop]
        exact ih _ _ (stepParse_slots_le kw text s i h) ty
    · rw [if_neg hi]
      exact h ty

set_option maxRecDepth 1000000 in
/-- C6: parsing a template containing `%%cpuUsage` yields the literal text
`%cpuUsage` in the output (the `%%` escape produces a single '%' and the
following characters are not matched as a placeholder) and binds no metric
slot in any category. -/
theorem parseText_percent_escape :
    parsedPrefix (parseText kw0 "%%cpuUsage".toList b0 []) 9 = "%cpuUsage".toList ∧
    (parseText kw0 "%%cpuUsage".toList b0 []).chars = 10 ∧
    (parseText kw0 "%%cpuUsage".toList b0 []).parsed 9 = nulChar ∧
    (parseText kw0 "%%cpuUsage".toList b0 []).slots .process = [] ∧
    (parseText kw0 "%%cpuUsage".toList b0 []).slots .window = [] ∧
    (parseText kw0 "%%cpuUsage".toList b0 []).slots .frame = [] ∧
    (parseText kw0 "%%cpuUsage".toList b0 []).slots .generic = [] := by
  refine ⟨by decide, by decide, by decide, by decide, by decide, by decide, by decide⟩

set_option maxRecDepth 1000000 in
/-- C4 counterexample: the unresolved placeholder `%foo` is not rendered as
literal text — the parser consumes the '%' and emits only `foo`: the produced
C string is "foo" and contains no '%' at all (no slot is bound and no error is
raised, but the claim that the placeholder appears as literal text in the
output is false). -/
theorem parseText_unmatched_drops_percent :
    parsedPrefix (parseText kw0 "%foo".toList b0 []) 3 = "foo".toList ∧
    (parseText kw0 "%foo".toList b0 []).chars = 4 ∧
    '%' ∉ parsedPrefix (parseText kw0 "%foo".toList b0 []) 4 ∧
    (parseText kw0 "%foo".toList b0 []).slots .process = [] ∧
    (parseText kw0 "%foo".toList b0 []).slots .window = [] ∧
    (parseText kw0 "%foo".toList b0 []).slots .frame = [] ∧
    (parseText kw0 "%foo".toList b0 []).slots .generic = [] := by
  refine ⟨by decide, by decide, by decide, by decide, by decide, by decide, by decide⟩

/-- A parser state whose output already holds 1020 characters, as reached
after 1020 literal bytes; binding a width-9 metric here would overflow
`maxParsedTextSize`. -/
def sNearFull : PState := ⟨b0, 1020, fun _ => [], []⟩

set_option maxRecDepth 1000000 in
/-- C4 (amended): for every template and parser state, a placeholder that
fails to bind — unknown name, owning category already at its 16-slot
capacity, or remaining parsed-text capacity too small for the slot width —
binds no slot and raises no error: universally, the slot tables after one
loop iteration are either unchanged or extended by exactly the slot of a
metric scan that succeeded on a below-capacity category with a fitting
width, and after parsing any template every category holds at most 16
slots. The characters after a failing placeholder's '%' are emitted as
literal text while the '%' itself is consumed: a template with 17 distinct
Frame-category metric placeholders binds exactly 16 slots and renders the
17th ("17frameNumber") as literal text without its '%'; an unknown `%foo`
renders "foo"; and the loop iteration facing a width-9 metric with 1020
characters already produced leaves the state unchanged, moving past the
'%'. -/
theorem parseText_unbindable_placeholder_degrades :
    (∀ (kw : Nat → List Char) (text : List Char) (p0 : Nat → Char)
        (scr0 : List Char) (ty : FMEventType),
      ((parseText kw text p0 scr0).slots ty).length ≤ maxMetricsPerType) ∧
    (∀ (kw : Nat → List Char) (text : List Char) (s : PState) (i : Nat),
      (stepParse kw text s i).1.slots = s.slots ∨
      ∃ j e, scanMetric (fun t => (s.slots t).length) text
          (i + 1 + (parseWidth text i).2) 0 metricTable = some (j, e) ∧
        (s.slots e.type).length < maxMetricsPerType ∧
        (parseWidth text i).1.getD e.defaultWidth + s.chars < maxParsedTextSize ∧
        (stepParse kw text s i).1.slots = updSlots s.slots e.type
          ⟨j, s.chars, (parseWidth text i).1.getD e.defaultWidth⟩) ∧
    ((parseText kw0 tmpl17 b0 []).slots .frame).length = 16 ∧
    (parseText kw0 tmpl17 b0 []).chars = 150 ∧
    parsedPrefix (parseText kw0 tmpl17 b0 []) 136 = List.replicate 136 '?' ∧
    (List.range 13).map (fun k => (parseText kw0 tmpl17 b0 []).parsed (136 + k))
      = "17frameNumber".toList ∧
    '%' ∉ parsedPrefix (parseText kw0 tmpl17 b0 []) 149 ∧
    parsedPrefix (parseText kw0 "%foo".toList b0 []) 3 = "foo".toList ∧
    (parseText kw0 "%foo".toList b0 []).slots .frame = [] ∧
    stepParse kw0 "%9cpuUsage".toList sNearFull 0 = (sNearFull, 1) := by
  refine ⟨?_, stepParse_slots, by decide, by decide, by decide, by decide,
    by decide, by decide, by decide, rfl⟩
  intro kw text p0 scr0 ty
  unfold parseText
  exact parseLoop_slots_le kw text (text.length + 1) _ 0 (fun _ => Nat.zero_le _) ty

/-- A keyword resolver whose every answer is the one-byte string "A". -/
def kwC : Nat → List Char := fun _ => "A".toList

/-- A stale `m_buffer` scratch holding no null byte in its 128 allocated
bytes: its contents are uninitialized heap at the first parse, and before any
later re-parse the metric updaters `memset` its head with non-null spaces and
digits. -/
def scratchC : List Char := List.replicate 128 'x'

/-- Thirty width-32 metric placeholders — fifteen Frame-category
`%32deltaTime` then fifteen Process-category `%32cpuUsage`, producing 960
output bytes — followed by the keyword placeholder `%cpuModel`. -/
def tmplStrcpy : List Char :=
  (String.join ((List.range 15).map (fun _ => "%32deltaTime")) ++
   String.join ((List.range 15).map (fun _ => "%32cpuUsage")) ++ "%cpuModel").toList

set_option maxRecDepth 1000000 in
/-- C9 (code bug, failing input): `parseText` can write far outside the
1024-byte `m_parsedText` allocation. Thirty width-32 metric placeholders put
`characters` at 960; the keyword `%cpuModel` then resolves to the one-byte
string "A", so the capacity check `stringSize < maxParsedTextSize -
characters` (1 < 64) passes — but `keywordString` never null-terminates the
scratch it resolved into, so the `strcpy` that follows copies until the first
stale null byte: with a null-free 128-byte scratch it writes 129 bytes at
indices 960..1088, and the byte store at index 1050 — past the end of the
allocation, whose initial contents were ' ' everywhere — now holds the stale
'x', while `characters` itself (962 at the end, within bounds) never records
the overflow. -/
theorem parseText_keyword_strcpy_overflows :
    maxParsedTextSize ≤ 1050 ∧
    b0 1050 = ' ' ∧
    (parseText kwC tmplStrcpy b0 scratchC).parsed 1050 = 'x' ∧
    (parseText kwC tmplStrcpy b0 scratchC).chars = 962 := by
  refine ⟨by decide, rfl, by decide, by decide⟩
